import Mathlib

/-!
Shallow embedding of the cursor-clip clipboard backend: the clipboard
store and ownership state (src/backend/backend_state.rs), the shared
data structures (src/shared/data_structures.rs), and the Wayland
data-control event handlers and helpers (src/backend/wayland_clipboard.rs),
together with proofs about the store invariants and the selection state
machine.

Modelling conventions:
- byte payloads are lists of naturals (`Bytes`);
- the source's `IndexMap<String, Bytes>` is an association list that
  preserves insertion order (`MimeMap`);
- Wayland proxy objects are identified by their numeric object ids, and
  the protocol side effects (destroying a source, reading an offer,
  flushing the connection, writing to a pipe) are recorded as `Action`s;
- image decoding and resizing (`BackendState::scale_image`) is out of
  scope per the spec ("image-thumbnail encoding (treated as an opaque
  transform producing optional preview bytes)"), so it is passed in as a
  function argument `scale_image : Bytes → Option Bytes`;
- the pipe reads of `read_all_data_formats_wlr` / `_ext` are driven by
  an oracle `world : String → Option Bytes` giving the bytes the offer's
  owner writes for a MIME type, `none` standing for a failed pipe or read.
-/

namespace CursorClip

/-- Byte payloads (`bytes::Bytes`), as lists of naturals. -/
abbrev Bytes := List Nat

/-- Rust `IndexMap<String, Bytes>`: an insertion-ordered association list. -/
abbrev MimeMap := List (String × Bytes)

/-- Rust `IndexMap::get`: the value bound to a key (keys are unique, so
the first matching binding). -/
def mimeGet (m : MimeMap) (k : String) : Option Bytes :=
  (m.find? (fun p => p.1 == k)).map (fun p => p.2)

/-- Rust `IndexMap::insert`: replace the value in place when the key is
already bound, otherwise append the new binding at the end. -/
def mimeInsert (m : MimeMap) (k : String) (v : Bytes) : MimeMap :=
  if m.any (fun p => p.1 == k) then
    m.map (fun p => if p.1 == k then (k, v) else p)
  else m ++ [(k, v)]

/-- Whether the second char list starts with the first. -/
def charListStarts : List Char → List Char → Bool
  | [], _ => true
  | _ :: _, [] => false
  | a :: s, b :: t => a == b && charListStarts s t

/-- Whether the first char list occurs contiguously in the second. -/
def charListHasSub (needle : List Char) : List Char → Bool
  | [] => charListStarts needle []
  | b :: t => charListStarts needle (b :: t) || charListHasSub needle t

/-- Rust `str::contains(&str)`: substring containment. -/
def containsSubstr (s sub : String) : Bool :=
  charListHasSub sub.toList s.toList

/-- Rust `str::starts_with(&str)`, via char lists. -/
def strStarts (s pre : String) : Bool :=
  charListStarts pre.toList s.toList

/-- Rust `str::contains(char)`, via char lists. -/
def strHasChar (s : String) (c : Char) : Bool :=
  s.toList.any (fun x => x == c)

/-- The `ClipboardContentType` enum (data_structures.rs:46). -/
inductive ClipboardContentType
  | Text
  | Url
  | Code
  | Password
  | File
  | Image
  | Other
deriving DecidableEq

/-- The `PASSWORD_SPECIALS` constant of `type_from_preview`
(data_structures.rs:91). -/
def PASSWORD_SPECIALS : String := "!@#$%^&*()-_=+[]\x7b\x7d;:,.<>?/\\|`~"

/-- Rust `ClipboardContentType::type_from_preview` (data_structures.rs:90):
content-type sniffing from the preview string.  Rust `str::len` is the
UTF-8 byte length, `String.utf8ByteSize` here. -/
def ClipboardContentType.type_from_preview (content : String) : ClipboardContentType :=
  if strStarts content "http://" || strStarts content "https://" then .Url
  else if containsSubstr content "fn " || containsSubstr content "impl "
      || containsSubstr content "struct " then .Code
  else if strHasChar content '/' && !strHasChar content ' '
      && content.utf8ByteSize < 256 then .File
  else if !content.isEmpty && content.utf8ByteSize < 50 && !strHasChar content ' '
      && content.toList.any (fun c => strHasChar PASSWORD_SPECIALS c) then .Password
  else .Text

/-- UTF-8 continuation byte check (`0x80..=0xBF`). -/
def isUtf8Cont (b : Nat) : Bool := 0x80 ≤ b && b ≤ 0xBF

/-- Decoder for `std::str::from_utf8` followed by `.chars()`: decodes a
byte list as UTF-8 into its characters, `none` on invalid UTF-8, with
the same acceptance ranges as Rust's standard library (no overlong
forms, no surrogates, max U+10FFFF).  The fuel argument is the byte
count; every step consumes at least one byte. -/
def utf8CharsAux : Nat → List Nat → Option (List Char)
  | _, [] => some []
  | 0, _ :: _ => none
  | fuel + 1, b :: rest =>
    if b ≤ 0x7F then
      (utf8CharsAux fuel rest).map (fun cs => Char.ofNat b :: cs)
    else if 0xC2 ≤ b ∧ b ≤ 0xDF then
      match rest with
      | b1 :: rest1 =>
        if isUtf8Cont b1 then
          (utf8CharsAux fuel rest1).map (fun cs =>
            Char.ofNat ((b - 0xC0) * 64 + (b1 - 0x80)) :: cs)
        else none
      | [] => none
    else if 0xE0 ≤ b ∧ b ≤ 0xEF then
      match rest with
      | b1 :: b2 :: rest2 =>
        if (if b = 0xE0 then 0xA0 else 0x80) ≤ b1
            ∧ b1 ≤ (if b = 0xED then 0x9F else 0xBF)
            ∧ isUtf8Cont b2 = true then
          (utf8CharsAux fuel rest2).map (fun cs =>
            Char.ofNat ((b - 0xE0) * 4096 + (b1 - 0x80) * 64 + (b2 - 0x80)) :: cs)
        else none
      | _ => none
    else if 0xF0 ≤ b ∧ b ≤ 0xF4 then
      match rest with
      | b1 :: b2 :: b3 :: rest3 =>
        if (if b = 0xF0 then 0x90 else 0x80) ≤ b1
            ∧ b1 ≤ (if b = 0xF4 then 0x8F else 0xBF)
            ∧ isUtf8Cont b2 = true ∧ isUtf8Cont b3 = true then
          (utf8CharsAux fuel rest3).map (fun cs =>
            Char.ofNat ((b - 0xF0) * 262144 + (b1 - 0x80) * 4096
              + (b2 - 0x80) * 64 + (b3 - 0x80)) :: cs)
        else none
      | _ => none
    else none

/-- Rust `std::str::from_utf8(bytes)` viewed through `.chars()`. -/
def utf8Decode (bytes : Bytes) : Option (List Char) :=
  utf8CharsAux bytes.length bytes

/-- Rust `ClipboardItem` (data_structures.rs:5), together with the
`thumbnail` payload that `BackendState::add_clipboard_item_from_mime_map`
attaches to every item it constructs (backend_state.rs:216-227). -/
structure ClipboardItem where
  item_id : Nat
  content_preview : String
  content_type : ClipboardContentType
  timestamp : Nat
  pinned : Bool
  mime_data : MimeMap
  thumbnail : Option Bytes
deriving DecidableEq

/-- Rust `ClipboardItemPreview` (data_structures.rs:17). -/
structure ClipboardItemPreview where
  item_id : Nat
  content_preview : String
  content_type : ClipboardContentType
  timestamp : Nat
  pinned : Bool
  thumbnail : Option Bytes
deriving DecidableEq

/-- Rust `impl From<&ClipboardItem> for ClipboardItemPreview`
(data_structures.rs:27): for an Image item the preview's thumbnail is
taken from the raw `image/png` binding of `mime_data`. -/
def ClipboardItemPreview.from_item (full : ClipboardItem) : ClipboardItemPreview :=
  { item_id := full.item_id
    content_preview := full.content_preview
    content_type := full.content_type
    timestamp := full.timestamp
    pinned := full.pinned
    thumbnail :=
      if full.content_type = ClipboardContentType.Image then
        mimeGet full.mime_data "image/png"
      else none }

/-- Rust `BackendState` (backend_state.rs:119).  Wayland proxies are
modelled by their presence (`Option Unit`) or their object id
(`Option Nat` for the owned data source). -/
structure BackendState where
  history : List ClipboardItem
  id_for_next_entry : Nat
  data_control_manager : Option Unit
  data_control_device : Option Unit
  qh : Option Unit
  seat : Option Unit
  connection : Option Unit
  mime_type_offers : List (Nat × List String)
  current_data_offer : Option Nat
  current_source_object : Option Nat
  current_source_entry_id : Option Nat
  suppress_next_selection_read : Bool
  monitor_only : Bool
deriving DecidableEq

/-- Rust `BackendState::new` (backend_state.rs:160). -/
def BackendState.new (monitor_only : Bool) : BackendState :=
  { history := []
    id_for_next_entry := 1
    data_control_manager := none
    data_control_device := none
    qh := none
    seat := none
    connection := none
    mime_type_offers := []
    current_data_offer := none
    current_source_object := none
    current_source_entry_id := none
    suppress_next_selection_read := false
    monitor_only := monitor_only }

/-- The item constructed by `BackendState::add_clipboard_item_from_mime_map`
(backend_state.rs:186-227): the `(content_preview, content_type, thumbnail)`
derivation followed by the `ClipboardItem` literal.  `scale_image` is the
opaque thumbnail transform (backend_state.rs:246); the caller guarantees
`mime_content` is non-empty, so the `[]` fallback arm is unreachable. -/
def makeClipboardItem (scale_image : Bytes → Option Bytes) (now : Nat)
    (next_id : Nat) (mime_content : MimeMap) : ClipboardItem :=
  match mimeGet mime_content "image/png" with
  | some png_bytes =>
    { item_id := next_id
      content_preview := "<image/png " ++ toString png_bytes.length ++ " bytes>"
      content_type := .Image
      timestamp := now
      pinned := false
      mime_data := mime_content
      thumbnail := scale_image png_bytes }
  | none =>
    let content_preview :=
      match mimeGet mime_content "text/plain;charset=utf-8" with
      | some txt_bytes =>
        match utf8Decode txt_bytes with
        | some cs => String.mk (cs.take 200)
        | none => "<text/plain;charset=utf-8 " ++ toString txt_bytes.length ++ " bytes>"
      | none =>
        match mime_content with
        | (mime_name, v) :: _ => "<" ++ mime_name ++ " " ++ toString v.length ++ " bytes>"
        | [] => "< 0 bytes>"
    { item_id := next_id
      content_preview := content_preview
      content_type := ClipboardContentType.type_from_preview content_preview
      timestamp := now
      pinned := false
      mime_data := mime_content
      thumbnail := none }

/-- The history produced by a (non-empty) insert: drop the entries whose
preview equals the new item's (`Vec::retain`, backend_state.rs:230),
insert the new item at the first unpinned position
(backend_state.rs:232-237), and truncate the tail to the 100-entry cap
(backend_state.rs:238-240). -/
def addHistory (scale_image : Bytes → Option Bytes) (now : Nat)
    (s : BackendState) (mime_content : MimeMap) : List ClipboardItem :=
  let item := makeClipboardItem scale_image now s.id_for_next_entry mime_content
  let retained := s.history.filter
    (fun existing => existing.content_preview != item.content_preview)
  let insert_index := retained.findIdx (fun existing => !existing.pinned)
  let inserted := retained.insertIdx insert_index item
  if 100 < inserted.length then inserted.take 100 else inserted

/-- Rust `BackendState::add_clipboard_item_from_mime_map`
(backend_state.rs:178-244): empty maps are rejected; otherwise the
history becomes `addHistory`, the fresh id is returned and the counter
bumped.  `now` models `SystemTime::now` in unix seconds. -/
def BackendState.add_clipboard_item_from_mime_map
    (scale_image : Bytes → Option Bytes) (now : Nat)
    (s : BackendState) (mime_content : MimeMap) : Option Nat × BackendState :=
  if mime_content.isEmpty then (none, s)
  else
    (some s.id_for_next_entry,
      { s with history := addHistory scale_image now s mime_content,
               id_for_next_entry := s.id_for_next_entry + 1 })

/-- Rust `BackendState::get_history` (backend_state.rs:302): the public
view, a list of previews. -/
def BackendState.get_history (s : BackendState) : List ClipboardItemPreview :=
  s.history.map ClipboardItemPreview.from_item

/-- Rust `BackendState::get_item_by_id` (backend_state.rs:309). -/
def BackendState.get_item_by_id (s : BackendState) (id : Nat) : Option ClipboardItem :=
  s.history.find? (fun i => i.item_id == id)

/-- Rust `BackendState::clear_history` (backend_state.rs:313). -/
def BackendState.clear_history (s : BackendState) : BackendState :=
  { s with history := [] }

/-- Observable protocol side effects of the handlers. -/
inductive Action
  | destroySource (src : Nat)
  | createSource (src : Nat)
  | offerMime (mime : String)
  | setSelection (src : Nat)
  | flushConn
  | destroyOffer (offer : Nat)
  | readOffer (offer : Nat) (mimes : List String)
  | writeFd (bytes : Option Bytes)
deriving DecidableEq

/-- Rust `BackendState::delete_item_by_id` (backend_state.rs:317):
result, final state, and emitted protocol actions.  The entry is removed
from the history first (line 324); afterwards, when the deleted entry is
the one served by the owned source, that source is destroyed and the
ownership fields are cleared (lines 326-331). -/
def BackendState.delete_item_by_id (s : BackendState) (entry_id : Nat) :
    Except String Unit × BackendState × List Action :=
  match s.history.findIdx? (fun item => item.item_id == entry_id) with
  | none => (.error ("No clipboard item found with ID: " ++ toString entry_id), s, [])
  | some index =>
    let s1 := { s with history := s.history.eraseIdx index }
    if s1.current_source_entry_id = some entry_id then
      let acts := match s1.current_source_object with
        | some src => [Action.destroySource src]
        | none => []
      (.ok (),
        { s1 with current_source_object := none, current_source_entry_id := none },
        acts)
    else (.ok (), s1, [])

/-- The successive states of `delete_item_by_id` in statement order: the
state right after `self.history.remove(index)` (backend_state.rs:324),
then — when the deleted entry is the owned one — the state after the
owned source is destroyed and the ownership fields cleared
(backend_state.rs:326-331).  Empty on the error path. -/
def BackendState.delete_item_by_id_states (s : BackendState) (entry_id : Nat) :
    List BackendState :=
  match s.history.findIdx? (fun item => item.item_id == entry_id) with
  | none => []
  | some index =>
    let s1 := { s with history := s.history.eraseIdx index }
    if s1.current_source_entry_id = some entry_id then
      [s1, { s1 with current_source_object := none, current_source_entry_id := none }]
    else [s1]

/-- Rust `BackendState::set_clipboard_by_id` (backend_state.rs:336):
looks the entry up, requires the data-control manager, device and queue
handle to be bound, destroys any previously owned source, creates and
populates a fresh source (`fresh_src` is the object id the library
allocates for it), sets the selection, records ownership, raises the
suppression flag and flushes the connection. -/
def BackendState.set_clipboard_by_id (s : BackendState) (entry_id : Nat)
    (fresh_src : Nat) : Except String Unit × BackendState × List Action :=
  match s.get_item_by_id entry_id with
  | none => (.error ("No clipboard item found with ID: " ++ toString entry_id), s, [])
  | some item =>
    if s.data_control_manager.isSome ∧ s.data_control_device.isSome ∧ s.qh.isSome then
      let destroyActs := match s.current_source_object with
        | some prev => [Action.destroySource prev]
        | none => []
      let offerActs := item.mime_data.map (fun p => Action.offerMime p.1)
      let flushActs := match s.connection with
        | some _ => [Action.flushConn]
        | none => []
      (.ok (),
        { s with current_source_object := some fresh_src
                 current_source_entry_id := some entry_id
                 suppress_next_selection_read := true },
        destroyActs ++ Action.createSource fresh_src :: offerActs
          ++ Action.setSelection fresh_src :: flushActs)
    else (.error "Wayland clipboard objects not available yet", s, [])

/-- Rust `BackendState::set_pinned` (backend_state.rs:377): removes the
entry, flips its flag, and re-inserts it at index 0 (pinning) or at the
first unpinned position of the remainder (unpinning).  The inner `none`
arm is unreachable: `findIdx?` always returns an in-range index. -/
def BackendState.set_pinned (s : BackendState) (entry_id : Nat) (pinned : Bool) :
    Except String Unit × BackendState :=
  match s.history.findIdx? (fun item => item.item_id == entry_id) with
  | none => (.error ("No clipboard item found with ID: " ++ toString entry_id), s)
  | some index =>
    match s.history[index]? with
    | none => (.error ("No clipboard item found with ID: " ++ toString entry_id), s)
    | some item0 =>
      let item := { item0 with pinned := pinned }
      let rest := s.history.eraseIdx index
      let insert_index :=
        if pinned then 0 else rest.findIdx (fun existing => !existing.pinned)
      (.ok (), { s with history := rest.insertIdx insert_index item })

/-- Rust `HashMap::insert` on `mime_type_offers`: replace the list bound
to the object id if present, otherwise add the binding. -/
def offersInsert (l : List (Nat × List String)) (k : Nat) (v : List String) :
    List (Nat × List String) :=
  if l.any (fun p => p.1 == k) then l.map (fun p => if p.1 == k then (k, v) else p)
  else l ++ [(k, v)]

/-- Rust `HashMap::get` on `mime_type_offers`. -/
def offersGet (l : List (Nat × List String)) (k : Nat) : Option (List String) :=
  (l.find? (fun p => p.1 == k)).map (fun p => p.2)

/-- Rust `HashMap::get_mut` followed by `Vec::push`: append a MIME type
to the list cached for an offer (no effect when the offer is untracked). -/
def offersAppendMime (l : List (Nat × List String)) (k : Nat) (mime : String) :
    List (Nat × List String) :=
  l.map (fun p => if p.1 == k then (p.1, p.2 ++ [mime]) else p)

/-- Rust `select_target_mimes` (wayland_clipboard.rs:546): narrow to the
best image MIME type among `image/png` > `image/jpeg` > `image/bmp` when
one of those is announced, otherwise keep the whole list. -/
def select_target_mimes (available_mimes : List String) : List String :=
  let best_image_mime :=
    ((available_mimes.find? (fun m => m == "image/png")).orElse
      (fun _ => available_mimes.find? (fun m => m == "image/jpeg"))).orElse
      (fun _ => available_mimes.find? (fun m => m == "image/bmp"))
  match best_image_mime with
  | some img => [img]
  | none => available_mimes

/-- Rust `read_all_data_formats_wlr` / `read_all_data_formats_ext`
(wayland_clipboard.rs:560, 607; identical logic): for each target MIME
type, pipe the offer's data and record it unless the read failed
(`world mime = none`, covering pipe-creation and read errors, which are
skipped) or produced no bytes. -/
def read_all_data_formats (world : String → Option Bytes)
    (mime_types : List String) : MimeMap :=
  if mime_types.isEmpty then []
  else
    (select_target_mimes mime_types).foldl
      (fun mime_map mime =>
        match world mime with
        | some buf => if buf.isEmpty then mime_map else mimeInsert mime_map mime buf
        | none => mime_map)
      []

/-- The `Offer` arm of the data-control offer dispatch
(wayland_clipboard.rs:249-258 wlr, 434-444 ext): the MIME type is
appended to the offer's cached list only when the offer is tracked and
the type does not begin with "video". -/
def onOfferMime (s : BackendState) (offer : Nat) (mime : String) : BackendState :=
  if (offersGet s.mime_type_offers offer).isSome ∧ ¬ strStarts mime "video" then
    { s with mime_type_offers := offersAppendMime s.mime_type_offers offer mime }
  else s

/-- The `Selection` arm of the data-control device dispatch
(wayland_clipboard.rs:156-218 wlr, 345-405 ext; identical logic).
`world` drives the pipe reads, `fresh_src` is the object id a fresh data
source would get, `now` the unix time, `scale_image` the opaque
thumbnail transform. -/
def onSelection (s : BackendState) (offer : Option Nat)
    (world : String → Option Bytes) (scale_image : Bytes → Option Bytes)
    (fresh_src : Nat) (now : Nat) : BackendState × List Action :=
  match offer with
  | none => ({ s with current_data_offer := none }, [])
  | some offer_key =>
    match offersGet s.mime_type_offers offer_key with
    | none => (s, [])
    | some mime_list =>
      if s.suppress_next_selection_read then
        ({ s with current_data_offer := some offer_key },
          [Action.destroyOffer offer_key])
      else if s.current_data_offer = some offer_key then
        (s, [Action.destroyOffer offer_key])
      else
        let s1 := { s with current_data_offer := some offer_key, mime_type_offers := [] }
        let mime_map := read_all_data_formats world mime_list
        let readAct := Action.readOffer offer_key (select_target_mimes mime_list)
        if mime_map.isEmpty then (s1, [readAct, Action.destroyOffer offer_key])
        else
          match s1.add_clipboard_item_from_mime_map scale_image now mime_map with
          | (some new_id, s2) =>
            if ¬ s2.monitor_only ∧ ¬ s2.suppress_next_selection_read then
              let r := s2.set_clipboard_by_id new_id fresh_src
              (r.2.1, readAct :: r.2.2 ++ [Action.destroyOffer offer_key])
            else (s2, [readAct, Action.destroyOffer offer_key])
          | (none, s2) => (s2, [readAct, Action.destroyOffer offer_key])

/-- The `Send` arm of the data-control source dispatch
(wayland_clipboard.rs:274-301, 459-486): writes the owned entry's bytes
for the requested MIME type to the pipe, or nothing (with a log line)
when the MIME type or entry is missing. -/
def onSend (s : BackendState) (mime : String) : BackendState × List Action :=
  match s.current_source_entry_id with
  | some item_id =>
    match s.get_item_by_id item_id with
    | some item =>
      match mimeGet item.mime_data mime with
      | some bytes => (s, [Action.writeFd (some bytes)])
      | none => (s, [Action.writeFd none])
    | none => (s, [])
  | none => (s, [])

/-- The `Cancelled` arm of the data-control source dispatch
(wayland_clipboard.rs:303-322, 488-505): when the cancelled source is
the currently owned one, the suppression flag and the owned-source
reference are cleared; the event's source object is destroyed either
way. -/
def onCancelled (s : BackendState) (src : Nat) : BackendState × List Action :=
  if s.current_source_object = some src then
    ({ s with suppress_next_selection_read := false, current_source_object := none },
      [Action.destroySource src])
  else (s, [Action.destroySource src])

/-- Compositor events and IPC operations driving the backend: the
dispatch impls of wayland_clipboard.rs and the `FrontendMessage` match
of ipc_server.rs (plus the debug-build sample-text insert and the
one-time global binding of `start_monitoring`). -/
inductive SysInput
  | bindGlobals
  | dataOffer (offer : Nat)
  | offerMime (offer : Nat) (mime : String)
  | selection (offer : Option Nat) (world : String → Option Bytes)
      (scale_image : Bytes → Option Bytes) (fresh_src : Nat) (now : Nat)
  | send (mime : String)
  | cancelled (src : Nat)
  | opGetHistory
  | opSetClipboardById (id : Nat) (fresh_src : Nat)
  | opSetPinned (id : Nat) (pinned : Bool)
  | opDeleteItemById (id : Nat)
  | opClearHistory
  | opAddTextDebug (txt : Bytes) (now : Nat)

/-- One dispatch step of the backend: a compositor event or an IPC
operation applied to the mutex-protected `BackendState`. -/
def stepSys (s : BackendState) : SysInput → BackendState × List Action
  | .bindGlobals =>
    ({ s with qh := some ()
              connection := some ()
              seat := some ()
              data_control_manager := some ()
              data_control_device := some () }, [])
  | .dataOffer o => ({ s with mime_type_offers := offersInsert s.mime_type_offers o [] }, [])
  | .offerMime o mime => (onOfferMime s o mime, [])
  | .selection o world sc fresh now => onSelection s o world sc fresh now
  | .send mime => onSend s mime
  | .cancelled src => onCancelled s src
  | .opGetHistory => (s, [])
  | .opSetClipboardById id fresh =>
    let r := s.set_clipboard_by_id id fresh
    (r.2.1, r.2.2)
  | .opSetPinned id p => ((s.set_pinned id p).2, [])
  | .opDeleteItemById id =>
    let r := s.delete_item_by_id id
    (r.2.1, r.2.2)
  | .opClearHistory => (s.clear_history, [])
  | .opAddTextDebug txt now =>
    ((s.add_clipboard_item_from_mime_map (fun _ => none) now
      [("text/plain;charset=utf-8", txt)]).2, [])

/-- States reachable from a fresh backend by any sequence of compositor
events and IPC operations. -/
inductive ReachableSys : BackendState → Prop
  | init (monitor_only : Bool) : ReachableSys (BackendState.new monitor_only)
  | step {s : BackendState} (inp : SysInput) (h : ReachableSys s) :
      ReachableSys (stepSys s inp).1

/-- The store-level operations of the spec's ClipboardStore: insert,
pin/unpin, delete, clear. -/
inductive StoreOp
  | insert (scale_image : Bytes → Option Bytes) (now : Nat) (m : MimeMap)
  | pin (id : Nat) (pinned : Bool)
  | del (id : Nat)
  | clear

/-- Apply one store operation (ignoring results and actions). -/
def applyStoreOp (s : BackendState) : StoreOp → BackendState
  | .insert sc now m => (s.add_clipboard_item_from_mime_map sc now m).2
  | .pin id p => (s.set_pinned id p).2
  | .del id => (s.delete_item_by_id id).2.1
  | .clear => s.clear_history

/-- Run a sequence of store operations. -/
def runStore (s : BackendState) (ops : List StoreOp) : BackendState :=
  ops.foldl applyStoreOp s

/-- The ids returned by the successful inserts of an operation sequence,
in order. -/
def insertResults (s : BackendState) : List StoreOp → List Nat
  | [] => []
  | StoreOp.insert sc now m :: ops =>
    match s.add_clipboard_item_from_mime_map sc now m with
    | (some id, s1) => id :: insertResults s1 ops
    | (none, s1) => insertResults s1 ops
  | op :: ops => insertResults (applyStoreOp s op) ops

/-! ## Helper lemmas -/

/-- After erasing the first entry whose id matches, no entry with that id
remains, provided ids are pairwise distinct. -/
theorem eraseIdx_findIdx_no_match (id : Nat) :
    ∀ l : List ClipboardItem,
      l.Pairwise (fun a b => a.item_id ≠ b.item_id) →
      ∀ x ∈ l.eraseIdx (l.findIdx (fun it => it.item_id == id)), x.item_id ≠ id := by
  intro l
  induction l with
  | nil => intro _ x hx; simp at hx
  | cons a t ih =>
    intro hp x hx
    rw [List.pairwise_cons] at hp
    rw [List.findIdx_cons] at hx
    by_cases ha : a.item_id = id
    · have hba : (a.item_id == id) = true := by simp [ha]
      rw [hba] at hx
      simp only [cond_true, List.eraseIdx_cons_zero] at hx
      have := hp.1 x hx
      omega
    · have hba : (a.item_id == id) = false := by simp [ha]
      rw [hba] at hx
      simp only [cond_false, List.eraseIdx_cons_succ, List.mem_cons] at hx
      rcases hx with rfl | hx
      · exact ha
      · exact ih hp.2 x hx

/-- A contained string is what `find?` with a `==` test returns. -/
theorem find?_beq_of_contains {a : String} {l : List String}
    (h : l.contains a = true) : l.find? (fun m => m == a) = some a := by
  cases hf : l.find? (fun m => m == a) with
  | none =>
    rw [List.find?_eq_none] at hf
    have hmem : a ∈ l := by simpa using h
    exact absurd (by simp) (hf a hmem)
  | some x =>
    have hx := List.find?_some hf
    have hxa : x = a := by simpa using hx
    rw [hxa]

/-- When no element of the list equals the string, `find?` returns none. -/
theorem find?_beq_of_not_contains {a : String} {l : List String}
    (h : l.contains a = false) : l.find? (fun m => m == a) = none := by
  have hnot : a ∉ l := by simpa using h
  rw [List.find?_eq_none]
  intro x hx
  simp only [beq_iff_eq]
  rintro rfl
  exact hnot hx

/-! ## C1 -/

/-- C1: the claim states that `get_history()` returns previews only, with
no raw MIME payload bytes, and that an Image entry's preview thumbnail
is the derived thumbnail rather than the stored raw `image/png` payload.
The code refutes it: `impl From<&ClipboardItem> for ClipboardItemPreview`
(data_structures.rs:27-44) fills the preview's `thumbnail` from the raw
`image/png` binding of `mime_data`.  Evaluating the code at the failing
input — insert `{"image/png": [1,2,3]}` with derived thumbnail `[9,9]` —
the public history view exposes the raw payload `[1,2,3]` while the
item's stored derived thumbnail is `[9,9]`. -/
theorem get_history_image_thumbnail_is_raw_png :
    ((BackendState.new false).add_clipboard_item_from_mime_map
        (fun _ => some [9, 9]) 0 [("image/png", [1, 2, 3])]).2.get_history
      = [{ item_id := 1
           content_preview := "<image/png 3 bytes>"
           content_type := ClipboardContentType.Image
           timestamp := 0
           pinned := false
           thumbnail := some [1, 2, 3] }]
    ∧ (((BackendState.new false).add_clipboard_item_from_mime_map
        (fun _ => some [9, 9]) 0 [("image/png", [1, 2, 3])]).2.get_item_by_id 1).map
        (fun it => it.thumbnail) = some (some [9, 9]) := by
  exact ⟨rfl, rfl⟩

/-! ## C2 -/

/-- A history entry used by the C2 scenario. -/
def deleteCexItem : ClipboardItem :=
  { item_id := 1
    content_preview := "p"
    content_type := ClipboardContentType.Text
    timestamp := 0
    pinned := false
    mime_data := [("t", [0])]
    thumbnail := none }

/-- A state whose owned source serves the single history entry. -/
def deleteCexState : BackendState :=
  { BackendState.new false with
    history := [deleteCexItem]
    id_for_next_entry := 2
    current_source_object := some 5
    current_source_entry_id := some 1 }

/-- C2 counterexample: the claim says `delete(id)` clears the ownership
fields before the entry is removed from the history.  In the code
(backend_state.rs:317-334) the removal happens first: in the first
intermediate state of `delete_item_by_id` the entry is already gone from
the history while both ownership fields still point at it. -/
theorem delete_clears_ownership_before_removal_cex :
    (deleteCexState.delete_item_by_id_states 1).head? =
      some { deleteCexState with history := [] }
    ∧ ({ deleteCexState with history := [] } : BackendState).history = []
    ∧ ({ deleteCexState with history := [] } : BackendState).current_source_object = some 5
    ∧ ({ deleteCexState with history := [] } : BackendState).current_source_entry_id
        = some 1 := by
  exact ⟨rfl, rfl, rfl, rfl⟩

/-- C2 (amended): when the deleted id matches the owned source's entry id,
`delete_item_by_id` removes the entry from the history first and then
destroys the source and clears the owned-source and owned-entry-id
fields; afterwards both ownership fields are cleared and the entry is
absent from the history. -/
theorem delete_owned_removes_then_clears
    (s : BackendState) (entry_id : Nat)
    (hown : s.current_source_entry_id = some entry_id)
    (hmem : ∃ it ∈ s.history, it.item_id = entry_id)
    (hnodup : s.history.Pairwise (fun a b => a.item_id ≠ b.item_id)) :
    ∃ s1 : BackendState,
      s.delete_item_by_id_states entry_id =
        [s1, { s1 with current_source_object := none, current_source_entry_id := none }]
      ∧ (s.delete_item_by_id entry_id).1 = Except.ok ()
      ∧ (s.delete_item_by_id entry_id).2.1 =
          { s1 with current_source_object := none, current_source_entry_id := none }
      ∧ (∀ it ∈ s1.history, it.item_id ≠ entry_id)
      ∧ s1.current_source_entry_id = some entry_id
      ∧ s1.current_source_object = s.current_source_object := by
  obtain ⟨x, hx, hxid⟩ := hmem
  have hex : ∃ y ∈ s.history, (fun it => it.item_id == entry_id) y = true :=
    ⟨x, hx, by simp [hxid]⟩
  have hlt := List.findIdx_lt_length_of_exists hex
  have hfind : s.history.findIdx? (fun it => it.item_id == entry_id) =
      some (s.history.findIdx (fun it => it.item_id == entry_id)) :=
    List.findIdx?_eq_some_iff_findIdx_eq.mpr ⟨hlt, rfl⟩
  refine ⟨{ s with history :=
    s.history.eraseIdx (s.history.findIdx (fun it => it.item_id == entry_id)) },
    ?_, ?_, ?_, ?_, ?_, ?_⟩
  · unfold BackendState.delete_item_by_id_states
    rw [hfind]
    simp [hown]
  · unfold BackendState.delete_item_by_id
    rw [hfind]
    simp [hown]
  · unfold BackendState.delete_item_by_id
    rw [hfind]
    simp [hown]
  · exact eraseIdx_findIdx_no_match entry_id s.history hnodup
  · exact hown
  · rfl

/-- C2 witness: the amended theorem applied to the concrete owned-entry
state of the counterexample scenario. -/
theorem delete_owned_removes_then_clears_witness :
    ∃ s1 : BackendState,
      deleteCexState.delete_item_by_id_states 1 =
        [s1, { s1 with current_source_object := none, current_source_entry_id := none }]
      ∧ (deleteCexState.delete_item_by_id 1).1 = Except.ok ()
      ∧ (deleteCexState.delete_item_by_id 1).2.1 =
          { s1 with current_source_object := none, current_source_entry_id := none }
      ∧ (∀ it ∈ s1.history, it.item_id ≠ 1)
      ∧ s1.current_source_entry_id = some 1
      ∧ s1.current_source_object = deleteCexState.current_source_object :=
  delete_owned_removes_then_clears deleteCexState 1 rfl
    ⟨deleteCexItem, by simp [deleteCexState], rfl⟩ (by simp [deleteCexState])

/-! ## C3 -/

/-- The opaque thumbnail transform on payloads that `image::load_from_memory`
rejects: `BackendState::scale_image` returns `None` for them
(backend_state.rs:247, and :250-252 for degenerate dimensions).  One
hundred zero bytes match no image format's magic number. -/
def scale_image_fail : Bytes → Option Bytes := fun _ => none

/-- C3 counterexample: the claim states every insert of a map containing
`image/png` yields `thumbnail = Some(...)`.  For a payload of 100 bytes
that is not a decodable image, `scale_image` returns `None`
(backend_state.rs:247), so the produced entry has `thumbnail = None`
while still having `content_type = Image`. -/
theorem insert_png_thumbnail_can_be_none_cex :
    (((BackendState.new false).add_clipboard_item_from_mime_map scale_image_fail 0
        [("image/png", List.replicate 100 0)]).2.get_item_by_id 1).map
        (fun it => (it.content_type, it.thumbnail))
      = some (ClipboardContentType.Image, none) := by
  rfl

/-- C3 (amended): for every MIME map containing `image/png` with a payload
of N bytes, the entry constructed by the insert has
`content_type = Image`, `preview = "<image/png N bytes>"`, and a
thumbnail equal to the opaque `scale_image` transform applied to the
payload — `Some(...)` exactly when that transform succeeds. -/
theorem insert_png_derives_image_entry
    (scale_image : Bytes → Option Bytes) (now next_id : Nat) (m : MimeMap)
    (png_bytes : Bytes) (h : mimeGet m "image/png" = some png_bytes) :
    (makeClipboardItem scale_image now next_id m).content_type
        = ClipboardContentType.Image
    ∧ (makeClipboardItem scale_image now next_id m).content_preview
        = "<image/png " ++ toString png_bytes.length ++ " bytes>"
    ∧ (makeClipboardItem scale_image now next_id m).thumbnail
        = scale_image png_bytes := by
  unfold makeClipboardItem
  rw [h]
  exact ⟨rfl, rfl, rfl⟩

/-- C3 witness: the amended theorem at a concrete two-byte png payload
with a succeeding transform. -/
theorem insert_png_derives_image_entry_witness :
    (makeClipboardItem (fun b => some [b.length]) 7 1
        [("image/png", [5, 6])]).content_type = ClipboardContentType.Image
    ∧ (makeClipboardItem (fun b => some [b.length]) 7 1
        [("image/png", [5, 6])]).content_preview = "<image/png 2 bytes>"
    ∧ (makeClipboardItem (fun b => some [b.length]) 7 1
        [("image/png", [5, 6])]).thumbnail = some [2] :=
  insert_png_derives_image_entry (fun b => some [b.length]) 7 1
    [("image/png", [5, 6])] [5, 6] rfl

/-! ## C4 -/

/-- Modelled from the spec's words, for comparison with the source's
`select_target_mimes`: the claim's "any image MIME type" — a MIME type
of the image category. -/
def spec_is_image_mime (m : String) : Bool := strStarts m "image/"

/-- C4 counterexample: the claim states the target-set narrowing returns
exactly one MIME type whenever ANY image MIME type is present.  The code
(wayland_clipboard.rs:546-558) only looks for `image/png`, `image/jpeg`
and `image/bmp`: for `["image/webp", "text/plain"]` an image MIME type is
present, yet the whole two-element list is returned. -/
theorem select_target_mimes_webp_not_narrowed_cex :
    spec_is_image_mime "image/webp" = true
    ∧ select_target_mimes ["image/webp", "text/plain"]
        = ["image/webp", "text/plain"]
    ∧ (select_target_mimes ["image/webp", "text/plain"]).length ≠ 1 := by
  refine ⟨by decide, rfl, by decide⟩

/-- C4 (amended): the narrowing returns exactly one MIME type whenever one
of `image/png`, `image/jpeg`, `image/bmp` is announced, chosen by the
preference png > jpeg > bmp, and returns the announced list unchanged
otherwise. -/
theorem select_target_mimes_narrowing (l : List String) :
    (l.contains "image/png" = true → select_target_mimes l = ["image/png"])
    ∧ (l.contains "image/png" = false → l.contains "image/jpeg" = true →
        select_target_mimes l = ["image/jpeg"])
    ∧ (l.contains "image/png" = false → l.contains "image/jpeg" = false →
        l.contains "image/bmp" = true → select_target_mimes l = ["image/bmp"])
    ∧ (l.contains "image/png" = false → l.contains "image/jpeg" = false →
        l.contains "image/bmp" = false → select_target_mimes l = l) := by
  refine ⟨?_, ?_, ?_, ?_⟩
  · intro hpng
    unfold select_target_mimes
    rw [find?_beq_of_contains hpng]
    rfl
  · intro hpng hjpeg
    unfold select_target_mimes
    rw [find?_beq_of_not_contains hpng, find?_beq_of_contains hjpeg]
    rfl
  · intro hpng hjpeg hbmp
    unfold select_target_mimes
    rw [find?_beq_of_not_contains hpng, find?_beq_of_not_contains hjpeg,
      find?_beq_of_contains hbmp]
    rfl
  · intro hpng hjpeg hbmp
    unfold select_target_mimes
    rw [find?_beq_of_not_contains hpng, find?_beq_of_not_contains hjpeg,
      find?_beq_of_not_contains hbmp]
    rfl

/-- C4 witness: the amended theorem at a concrete announced list holding
`image/jpeg` but no `image/png`. -/
theorem select_target_mimes_narrowing_witness :
    select_target_mimes ["text/html", "image/jpeg"] = ["image/jpeg"] :=
  (select_target_mimes_narrowing ["text/html", "image/jpeg"]).2.1 (by decide) (by decide)

/-! ## C6 -/

/-- C6: `set_clipboard_by_id` returns an error value iff the entry id is
unknown or the data-control manager/device/queue-handle is not yet
bound; on every error the state is unchanged and no protocol action (in
particular no source destruction or creation) happens. -/
theorem set_clipboard_by_id_error_iff (s : BackendState) (entry_id fresh_src : Nat) :
    ((s.set_clipboard_by_id entry_id fresh_src).1.isOk = false ↔
      (s.get_item_by_id entry_id = none ∨ s.data_control_manager = none ∨
        s.data_control_device = none ∨ s.qh = none))
    ∧ ((s.set_clipboard_by_id entry_id fresh_src).1.isOk = false →
        (s.set_clipboard_by_id entry_id fresh_src).2.1 = s
        ∧ (s.set_clipboard_by_id entry_id fresh_src).2.2 = []) := by
  unfold BackendState.set_clipboard_by_id
  cases hget : s.get_item_by_id entry_id <;>
    cases hm : s.data_control_manager <;>
    cases hd : s.data_control_device <;>
    cases hq : s.qh <;>
    simp [Except.isOk, Except.toBool, hget, hm, hd, hq]

/-- C6 witness: on a fresh state (no entry 1, no device bound) the call
errors and leaves the state untouched with no actions. -/
theorem set_clipboard_by_id_error_iff_witness :
    ((BackendState.new false).set_clipboard_by_id 1 9).1.isOk = false
    ∧ ((BackendState.new false).set_clipboard_by_id 1 9).2.1 = BackendState.new false
    ∧ ((BackendState.new false).set_clipboard_by_id 1 9).2.2 = [] := by
  have h := set_clipboard_by_id_error_iff (BackendState.new false) 1 9
  have herr : ((BackendState.new false).set_clipboard_by_id 1 9).1.isOk = false :=
    h.1.mpr (Or.inl rfl)
  exact ⟨herr, (h.2 herr).1, (h.2 herr).2⟩

/-! ## C5 -/

/-- Pinning never touches the suppression flag. -/
theorem suppress_set_pinned (s : BackendState) (id : Nat) (p : Bool) :
    ((s.set_pinned id p).2).suppress_next_selection_read
      = s.suppress_next_selection_read := by
  unfold BackendState.set_pinned
  split
  · rfl
  · split <;> rfl

/-- Deleting never touches the suppression flag. -/
theorem suppress_delete (s : BackendState) (id : Nat) :
    ((s.delete_item_by_id id).2.1).suppress_next_selection_read
      = s.suppress_next_selection_read := by
  unfold BackendState.delete_item_by_id
  split
  · rfl
  · dsimp only
    split <;> rfl

/-- A `Send` event never changes the state at all. -/
theorem onSend_state (s : BackendState) (mime : String) :
    (onSend s mime).1 = s := by
  unfold onSend
  split
  · split
    · split <;> rfl
    · rfl
  · rfl

/-- An `Offer` event never touches the suppression flag. -/
theorem suppress_offer_mime (s : BackendState) (o : Nat) (mime : String) :
    (onOfferMime s o mime).suppress_next_selection_read
      = s.suppress_next_selection_read := by
  unfold onOfferMime
  split <;> rfl

/-- Inserting never touches the suppression flag. -/
theorem suppress_add (sc : Bytes → Option Bytes) (now : Nat) (s : BackendState)
    (m : MimeMap) :
    ((s.add_clipboard_item_from_mime_map sc now m).2).suppress_next_selection_read
      = s.suppress_next_selection_read := by
  unfold BackendState.add_clipboard_item_from_mime_map
  split <;> rfl

/-- Taking ownership keeps a set suppression flag set (it only ever raises
it). -/
theorem suppress_set_clipboard (s : BackendState) (id fre : Nat)
    (h : s.suppress_next_selection_read = true) :
    ((s.set_clipboard_by_id id fre).2.1).suppress_next_selection_read = true := by
  unfold BackendState.set_clipboard_by_id
  split
  · exact h
  · split
    · rfl
    · exact h

/-- A `Selection` event dispatched with the suppression flag set leaves it
set. -/
theorem suppress_selection (s : BackendState) (o : Option Nat)
    (world : String → Option Bytes) (sc : Bytes → Option Bytes) (fresh now : Nat)
    (h : s.suppress_next_selection_read = true) :
    ((onSelection s o world sc fresh now).1).suppress_next_selection_read = true := by
  unfold onSelection
  split
  · exact h
  · split
    · exact h
    · simp [h]

/-- C5: while the suppression flag is set, a `Selection(offer)` event for a
tracked offer only records the offer as current and destroys the offer
object; no `Selection` event triggers a read while the flag is set; and
the flag is cleared only by a `Cancelled` event whose source equals the
currently owned source object. -/
theorem selection_suppression_protocol :
    (∀ (s : BackendState) (offer_key : Nat) (world : String → Option Bytes)
        (sc : Bytes → Option Bytes) (fresh now : Nat),
      s.suppress_next_selection_read = true →
      (offersGet s.mime_type_offers offer_key).isSome = true →
      stepSys s (SysInput.selection (some offer_key) world sc fresh now)
        = ({ s with current_data_offer := some offer_key },
            [Action.destroyOffer offer_key]))
    ∧ (∀ (s : BackendState) (offer : Option Nat) (world : String → Option Bytes)
        (sc : Bytes → Option Bytes) (fresh now : Nat) (o : Nat) (ms : List String),
      s.suppress_next_selection_read = true →
      Action.readOffer o ms ∉ (stepSys s (SysInput.selection offer world sc fresh now)).2)
    ∧ (∀ (s : BackendState) (inp : SysInput),
      s.suppress_next_selection_read = true →
      (stepSys s inp).1.suppress_next_selection_read = false →
      ∃ src, inp = SysInput.cancelled src ∧ s.current_source_object = some src) := by
  refine ⟨?_, ?_, ?_⟩
  · intro s offer_key world sc fresh now h1 h2
    unfold stepSys onSelection
    rcases hg : offersGet s.mime_type_offers offer_key with _ | mimes
    · rw [hg] at h2
      cases h2
    · simp [hg, h1]
  · intro s offer world sc fresh now o ms h1
    unfold stepSys onSelection
    rcases offer with _ | key
    · simp
    · rcases hg : offersGet s.mime_type_offers key with _ | mimes
      · simp [hg]
      · simp [hg, h1]
  · intro s inp h1 h2
    cases inp with
    | cancelled src =>
      refine ⟨src, rfl, ?_⟩
      by_cases hc : s.current_source_object = some src
      · exact hc
      · exfalso
        simp only [stepSys, onCancelled] at h2
        rw [if_neg hc] at h2
        dsimp only at h2
        rw [h1] at h2
        cases h2
    | bindGlobals =>
      exfalso
      simp only [stepSys] at h2
      rw [h1] at h2
      cases h2
    | dataOffer o =>
      exfalso
      simp only [stepSys] at h2
      rw [h1] at h2
      cases h2
    | offerMime o mime =>
      exfalso
      simp only [stepSys] at h2
      rw [suppress_offer_mime s o mime, h1] at h2
      cases h2
    | selection o world sc fresh now =>
      exfalso
      simp only [stepSys] at h2
      rw [suppress_selection s o world sc fresh now h1] at h2
      cases h2
    | send mime =>
      exfalso
      simp only [stepSys] at h2
      rw [onSend_state s mime, h1] at h2
      cases h2
    | opGetHistory =>
      exfalso
      simp only [stepSys] at h2
      rw [h1] at h2
      cases h2
    | opSetClipboardById id fresh =>
      exfalso
      simp only [stepSys] at h2
      rw [suppress_set_clipboard s id fresh h1] at h2
      cases h2
    | opSetPinned id p =>
      exfalso
      simp only [stepSys] at h2
      rw [suppress_set_pinned s id p, h1] at h2
      cases h2
    | opDeleteItemById id =>
      exfalso
      simp only [stepSys] at h2
      rw [suppress_delete s id, h1] at h2
      cases h2
    | opClearHistory =>
      exfalso
      simp only [stepSys, BackendState.clear_history] at h2
      rw [h1] at h2
      cases h2
    | opAddTextDebug txt now =>
      exfalso
      simp only [stepSys] at h2
      rw [suppress_add (fun _ => none) now s [("text/plain;charset=utf-8", txt)], h1] at h2
      cases h2

/-- A state with the suppression flag set, a tracked offer 7, and owned
source object 3, used to witness the suppression protocol. -/
def suppCexState : BackendState :=
  { BackendState.new false with
    suppress_next_selection_read := true
    mime_type_offers := [(7, ["text/plain"])]
    current_source_object := some 3 }

/-- C5 witness: the protocol theorem applied at a concrete suppressed
state — the suppressed `Selection` only records offer 7 and destroys it,
triggers no read, and the matching `Cancelled` is identified as the only
flag-clearing input. -/
theorem selection_suppression_protocol_witness :
    stepSys suppCexState (SysInput.selection (some 7) (fun _ => none) (fun _ => none) 9 0)
      = ({ suppCexState with current_data_offer := some 7 }, [Action.destroyOffer 7])
    ∧ Action.readOffer 7 ["text/plain"]
        ∉ (stepSys suppCexState
            (SysInput.selection (some 7) (fun _ => none) (fun _ => none) 9 0)).2
    ∧ ∃ src, SysInput.cancelled 3 = SysInput.cancelled src
        ∧ suppCexState.current_source_object = some src := by
  refine ⟨?_, ?_, ?_⟩
  · exact selection_suppression_protocol.1 suppCexState 7 (fun _ => none)
      (fun _ => none) 9 0 rfl rfl
  · exact selection_suppression_protocol.2.1 suppCexState (some 7) (fun _ => none)
      (fun _ => none) 9 0 7 ["text/plain"] rfl
  · exact selection_suppression_protocol.2.2 suppCexState (SysInput.cancelled 3) rfl rfl

/-! ## Pinned-order and store invariants (C8, C9, C7) -/

/-- The pinned-prefix order between history entries: a pinned entry never
follows an unpinned one. -/
def pinnedOrder (a b : ClipboardItem) : Prop := b.pinned = true → a.pinned = true

/-- The constructed item is always unpinned (backend_state.rs:224). -/
theorem makeClipboardItem_pinned (sc : Bytes → Option Bytes) (now nid : Nat)
    (m : MimeMap) : (makeClipboardItem sc now nid m).pinned = false := by
  unfold makeClipboardItem
  split <;> rfl

/-- The constructed item carries the fresh id (backend_state.rs:217). -/
theorem makeClipboardItem_item_id (sc : Bytes → Option Bytes) (now nid : Nat)
    (m : MimeMap) : (makeClipboardItem sc now nid m).item_id = nid := by
  unfold makeClipboardItem
  split <;> rfl

/-- The constructed item stores the MIME map unchanged
(backend_state.rs:225). -/
theorem makeClipboardItem_mime_data (sc : Bytes → Option Bytes) (now nid : Nat)
    (m : MimeMap) : (makeClipboardItem sc now nid m).mime_data = m := by
  unfold makeClipboardItem
  split <;> rfl

/-- In a pinned-prefix-ordered list headed by an unpinned entry, every
entry is unpinned. -/
theorem pinnedOrder_all_unpinned {a : ClipboardItem} {t : List ClipboardItem}
    (hp : List.Pairwise pinnedOrder (a :: t)) (ha : a.pinned = false) :
    ∀ y ∈ a :: t, y.pinned = false := by
  intro y hy
  rcases List.mem_cons.mp hy with rfl | hyt
  · exact ha
  · cases hpy : y.pinned with
    | false => rfl
    | true =>
      have hap : a.pinned = true := (List.pairwise_cons.mp hp).1 y hyt hpy
      rw [hap] at ha
      cases ha

/-- Inserting an unpinned item at the first unpinned position preserves
the pinned-prefix order. -/
theorem pairwise_insert_first_unpinned (x : ClipboardItem) (_hx : x.pinned = false) :
    ∀ l : List ClipboardItem, List.Pairwise pinnedOrder l →
      List.Pairwise pinnedOrder
        (List.insertIdx (l.findIdx (fun e => !e.pinned)) x l) := by
  intro l
  induction l with
  | nil =>
    intro _
    simp [List.pairwise_singleton]
  | cons a t ih =>
    intro hp
    cases hpa : a.pinned with
    | false =>
      simp only [List.findIdx_cons, hpa, Bool.not_false, cond_true, List.insertIdx_zero]
      rw [List.pairwise_cons]
      refine ⟨?_, hp⟩
      intro y hy hpy
      have hun := pinnedOrder_all_unpinned hp hpa y hy
      rw [hun] at hpy
      cases hpy
    | true =>
      simp only [List.findIdx_cons, hpa, Bool.not_true, cond_false,
        List.insertIdx_succ_cons]
      rw [List.pairwise_cons]
      rw [List.pairwise_cons] at hp
      refine ⟨?_, ih hp.2⟩
      intro y _ _
      exact hpa

/-- Inserting a pinned item at the head preserves the pinned-prefix
order. -/
theorem pairwise_cons_pinned (x : ClipboardItem) (hx : x.pinned = true)
    (l : List ClipboardItem) (hp : List.Pairwise pinnedOrder l) :
    List.Pairwise pinnedOrder (x :: l) := by
  rw [List.pairwise_cons]
  exact ⟨fun y _ _ => hx, hp⟩

/-- Store invariant: pinned-prefix ordering, all ids below the fresh-id
counter, and the 100-entry cap. -/
def StoreInv (s : BackendState) : Prop :=
  List.Pairwise pinnedOrder s.history
  ∧ (∀ it ∈ s.history, it.item_id < s.id_for_next_entry)
  ∧ s.history.length ≤ 100

/-- Members of the inserted history are the new item or old entries. -/
theorem mem_addHistory {sc : Bytes → Option Bytes} {now : Nat} {s : BackendState}
    {m : MimeMap} {y : ClipboardItem} (hy : y ∈ addHistory sc now s m) :
    y = makeClipboardItem sc now s.id_for_next_entry m ∨ y ∈ s.history := by
  simp only [addHistory] at hy
  have hk := @List.findIdx_le_length ClipboardItem (fun e => !e.pinned)
    (s.history.filter (fun existing =>
      existing.content_preview
        != (makeClipboardItem sc now s.id_for_next_entry m).content_preview))
  split at hy <;>
    [have hy' := List.mem_of_mem_take hy; skip] <;>
    [rcases (List.mem_insertIdx hk).mp hy' with rfl | hmem;
     rcases (List.mem_insertIdx hk).mp hy with rfl | hmem]
  · exact Or.inl rfl
  · exact Or.inr (List.mem_of_mem_filter hmem)
  · exact Or.inl rfl
  · exact Or.inr (List.mem_of_mem_filter hmem)

/-- The inserted history keeps the pinned-prefix order. -/
theorem pairwise_addHistory (sc : Bytes → Option Bytes) (now : Nat)
    (s : BackendState) (m : MimeMap)
    (hp : List.Pairwise pinnedOrder s.history) :
    List.Pairwise pinnedOrder (addHistory sc now s m) := by
  simp only [addHistory]
  split
  · exact List.Pairwise.sublist (List.take_sublist _ _)
      (pairwise_insert_first_unpinned _ (makeClipboardItem_pinned sc now _ m) _
        (List.Pairwise.filter _ hp))
  · exact pairwise_insert_first_unpinned _ (makeClipboardItem_pinned sc now _ m) _
      (List.Pairwise.filter _ hp)

/-- The inserted history respects the 100-entry cap. -/
theorem length_addHistory_le (sc : Bytes → Option Bytes) (now : Nat)
    (s : BackendState) (m : MimeMap) :
    (addHistory sc now s m).length ≤ 100 := by
  simp only [addHistory]
  split
  · rw [List.length_take]
    omega
  · omega

/-- Every entry of the inserted history has its id below the bumped
counter. -/
theorem ids_addHistory (sc : Bytes → Option Bytes) (now : Nat) (s : BackendState)
    (m : MimeMap) (h : ∀ it ∈ s.history, it.item_id < s.id_for_next_entry) :
    ∀ y ∈ addHistory sc now s m, y.item_id < s.id_for_next_entry + 1 := by
  intro y hy
  rcases mem_addHistory hy with rfl | hmem
  · rw [makeClipboardItem_item_id]
    omega
  · exact Nat.lt_succ_of_lt (h y hmem)

/-- The result of `add_clipboard_item_from_mime_map` is one of two
shapes. -/
theorem add_result_cases (sc : Bytes → Option Bytes) (now : Nat) (s : BackendState)
    (m : MimeMap) :
    s.add_clipboard_item_from_mime_map sc now m = (none, s)
    ∨ s.add_clipboard_item_from_mime_map sc now m
        = (some s.id_for_next_entry,
           { s with history := addHistory sc now s m,
                    id_for_next_entry := s.id_for_next_entry + 1 }) := by
  unfold BackendState.add_clipboard_item_from_mime_map
  split
  · exact Or.inl rfl
  · exact Or.inr rfl

/-- Inserting preserves the store invariant. -/
theorem storeInv_add (sc : Bytes → Option Bytes) (now : Nat) (m : MimeMap)
    {s : BackendState} (h : StoreInv s) :
    StoreInv (s.add_clipboard_item_from_mime_map sc now m).2 := by
  rcases add_result_cases sc now s m with heq | heq <;> rw [heq]
  · exact h
  · exact ⟨pairwise_addHistory sc now s m h.1, ids_addHistory sc now s m h.2.1,
      length_addHistory_le sc now s m⟩

/-- Pinning/unpinning preserves the store invariant. -/
theorem storeInv_set_pinned (id : Nat) (p : Bool) {s : BackendState}
    (h : StoreInv s) : StoreInv (s.set_pinned id p).2 := by
  unfold BackendState.set_pinned
  split
  · exact h
  · split
    · exact h
    · rename_i x index heq y item0 heq2
      dsimp only
      have hidx : index < s.history.length := by
        by_contra hcon
        rw [List.getElem?_eq_none (Nat.le_of_not_lt hcon)] at heq2
        cases heq2
      have hmem0 : item0 ∈ s.history := List.getElem?_mem heq2
      have hrest : List.Pairwise pinnedOrder (s.history.eraseIdx index) :=
        List.Pairwise.sublist (List.eraseIdx_sublist _ _) h.1
      have hkle : (if p = true then 0
          else (s.history.eraseIdx index).findIdx (fun e => !e.pinned))
          ≤ (s.history.eraseIdx index).length := by
        split
        · omega
        · exact List.findIdx_le_length _
      refine ⟨?_, ?_, ?_⟩
      · cases p with
        | true =>
          simp only [if_pos rfl, List.insertIdx_zero]
          exact pairwise_cons_pinned _ rfl _ hrest
        | false =>
          simp only [if_neg (by simp : ¬(false = true))]
          exact pairwise_insert_first_unpinned _ rfl _ hrest
      · intro y hy
        rcases (List.mem_insertIdx hkle).mp hy with rfl | hmem
        · exact h.2.1 item0 hmem0
        · exact h.2.1 y ((List.eraseIdx_sublist _ _).subset hmem)
      · rw [List.length_insertIdx _ _ hkle, List.length_eraseIdx, if_pos hidx]
        have := h.2.2
        omega

/-- Deleting preserves the store invariant. -/
theorem storeInv_delete (id : Nat) {s : BackendState} (h : StoreInv s) :
    StoreInv (s.delete_item_by_id id).2.1 := by
  have herase : ∀ index : Nat,
      List.Pairwise pinnedOrder (s.history.eraseIdx index)
      ∧ (∀ it ∈ s.history.eraseIdx index, it.item_id < s.id_for_next_entry)
      ∧ (s.history.eraseIdx index).length ≤ 100 := by
    intro index
    exact ⟨List.Pairwise.sublist (List.eraseIdx_sublist _ _) h.1,
      fun y hy => h.2.1 y ((List.eraseIdx_sublist _ _).subset hy),
      Nat.le_trans (List.Sublist.length_le (List.eraseIdx_sublist _ _)) h.2.2⟩
  unfold BackendState.delete_item_by_id
  split
  · exact h
  · dsimp only
    split
    · exact herase _
    · exact herase _

/-- Clearing preserves the store invariant. -/
theorem storeInv_clear {s : BackendState} (_ : StoreInv s) :
    StoreInv s.clear_history := by
  refine ⟨List.Pairwise.nil, ?_, ?_⟩ <;> simp [BackendState.clear_history]

/-- Every store operation preserves the store invariant. -/
theorem storeInv_applyOp (op : StoreOp) {s : BackendState} (h : StoreInv s) :
    StoreInv (applyStoreOp s op) := by
  cases op with
  | insert sc now m => exact storeInv_add sc now m h
  | pin id p => exact storeInv_set_pinned id p h
  | del id => exact storeInv_delete id h
  | clear => exact storeInv_clear h

/-- The store invariant holds along every operation sequence. -/
theorem storeInv_runStore (ops : List StoreOp) {s : BackendState} (h : StoreInv s) :
    StoreInv (runStore s ops) := by
  induction ops generalizing s with
  | nil => exact h
  | cons op ops ih => exact ih (storeInv_applyOp op h)

/-- A fresh backend satisfies the store invariant. -/
theorem storeInv_new (mo : Bool) : StoreInv (BackendState.new mo) := by
  refine ⟨List.Pairwise.nil, ?_, ?_⟩ <;> simp [BackendState.new]

/-- Pinning never changes the fresh-id counter. -/
theorem id_next_set_pinned (s : BackendState) (id : Nat) (p : Bool) :
    (s.set_pinned id p).2.id_for_next_entry = s.id_for_next_entry := by
  unfold BackendState.set_pinned
  split
  · rfl
  · split <;> rfl

/-- Deleting never changes the fresh-id counter. -/
theorem id_next_delete (s : BackendState) (id : Nat) :
    (s.delete_item_by_id id).2.1.id_for_next_entry = s.id_for_next_entry := by
  unfold BackendState.delete_item_by_id
  split
  · rfl
  · dsimp only
    split <;> rfl

/-- The fresh-id counter never decreases under store operations. -/
theorem id_next_mono_applyOp (op : StoreOp) (s : BackendState) :
    s.id_for_next_entry ≤ (applyStoreOp s op).id_for_next_entry := by
  cases op with
  | insert sc now m =>
    show s.id_for_next_entry
      ≤ (s.add_clipboard_item_from_mime_map sc now m).2.id_for_next_entry
    rcases add_result_cases sc now s m with heq | heq
    · rw [heq]
    · rw [heq]
      dsimp only
      omega
  | pin id p =>
    show s.id_for_next_entry ≤ (s.set_pinned id p).2.id_for_next_entry
    rw [id_next_set_pinned]
  | del id =>
    show s.id_for_next_entry ≤ (s.delete_item_by_id id).2.1.id_for_next_entry
    rw [id_next_delete]
  | clear =>
    exact Nat.le_refl _

/-- Every id returned by an insert in a run is at least the counter of the
starting state. -/
theorem insertResults_lb (ops : List StoreOp) :
    ∀ s : BackendState, ∀ id ∈ insertResults s ops, s.id_for_next_entry ≤ id := by
  induction ops with
  | nil =>
    intro s id hid
    simp [insertResults] at hid
  | cons op ops ih =>
    intro s id hid
    cases op with
    | insert sc now m =>
      simp only [insertResults] at hid
      rcases add_result_cases sc now s m with heq | heq <;> rw [heq] at hid
      · exact ih s id hid
      · dsimp only at hid
        rcases List.mem_cons.mp hid with rfl | htail
        · exact Nat.le_refl _
        · have := ih _ id htail
          dsimp only at this
          omega
    | pin pid p =>
      simp only [insertResults] at hid
      exact Nat.le_trans (id_next_mono_applyOp (StoreOp.pin pid p) s)
        (ih _ id hid)
    | del did =>
      simp only [insertResults] at hid
      exact Nat.le_trans (id_next_mono_applyOp (StoreOp.del did) s) (ih _ id hid)
    | clear =>
      simp only [insertResults] at hid
      exact Nat.le_trans (id_next_mono_applyOp StoreOp.clear s) (ih _ id hid)

/-- The ids returned by the inserts of a run are strictly increasing. -/
theorem insertResults_pairwise (ops : List StoreOp) :
    ∀ s : BackendState, List.Pairwise (fun a b => a < b) (insertResults s ops) := by
  induction ops with
  | nil =>
    intro s
    simp [insertResults]
  | cons op ops ih =>
    intro s
    cases op with
    | insert sc now m =>
      simp only [insertResults]
      rcases add_result_cases sc now s m with heq | heq <;> rw [heq]
      · exact ih s
      · dsimp only
        rw [List.pairwise_cons]
        refine ⟨?_, ih _⟩
        intro y hy
        have hlb := insertResults_lb ops _ y hy
        dsimp only at hlb
        omega
    | pin pid p =>
      simp only [insertResults]
      exact ih _
    | del did =>
      simp only [insertResults]
      exact ih _
    | clear =>
      simp only [insertResults]
      exact ih _

/-! ## C9 -/

/-- C9: after any sequence of store operations from a fresh backend, the
history holds at most 100 entries (in particular after each insert), and
the ids assigned by the successful inserts of the sequence are strictly
increasing — hence never reused. -/
theorem insert_cap_and_increasing_ids (mo : Bool) (ops : List StoreOp) :
    (runStore (BackendState.new mo) ops).history.length ≤ 100
    ∧ List.Pairwise (fun a b => a < b)
        (insertResults (BackendState.new mo) ops) :=
  ⟨(storeInv_runStore ops (storeInv_new mo)).2.2,
    insertResults_pairwise ops (BackendState.new mo)⟩

/-- C9 witness: two concrete inserts get the ids 1 then 2, the cap holds. -/
theorem insert_cap_and_increasing_ids_witness :
    (runStore (BackendState.new false)
        [StoreOp.insert (fun _ => none) 0 [("a", [1])],
         StoreOp.insert (fun _ => none) 1 [("b", [2])]]).history.length ≤ 100
    ∧ List.Pairwise (fun a b => a < b)
        (insertResults (BackendState.new false)
          [StoreOp.insert (fun _ => none) 0 [("a", [1])],
           StoreOp.insert (fun _ => none) 1 [("b", [2])]])
    ∧ insertResults (BackendState.new false)
        [StoreOp.insert (fun _ => none) 0 [("a", [1])],
         StoreOp.insert (fun _ => none) 1 [("b", [2])]] = [1, 2] :=
  ⟨(insert_cap_and_increasing_ids false _).1,
    (insert_cap_and_increasing_ids false _).2, rfl⟩

/-! ## C8 -/

/-- C8: in every state reachable by insert, pin/unpin, delete and clear,
the pinned entries form a contiguous prefix of the history followed by
the unpinned ones; and `set_pinned` moves the entry to index 0 (pinning)
or to the first unpinned position of the remainder (unpinning), keeping
all other entries in their relative order (the remainder is exactly the
history with the entry removed). -/
theorem pinned_ordering_invariant :
    (∀ (mo : Bool) (ops : List StoreOp),
      List.Pairwise pinnedOrder (runStore (BackendState.new mo) ops).history)
    ∧ (∀ (s : BackendState) (id index : Nat) (item0 : ClipboardItem),
        s.history.findIdx? (fun it => it.item_id == id) = some index →
        s.history[index]? = some item0 →
        ((s.set_pinned id true).2.history
            = { item0 with pinned := true } :: s.history.eraseIdx index)
        ∧ ((s.set_pinned id false).2.history
            = (s.history.eraseIdx index).insertIdx
                ((s.history.eraseIdx index).findIdx (fun e => !e.pinned))
                { item0 with pinned := false })) := by
  constructor
  · intro mo ops
    exact (storeInv_runStore ops (storeInv_new mo)).1
  · intro s id index item0 hfind hget
    constructor
    · unfold BackendState.set_pinned
      simp only [hfind, hget]
      simp [List.insertIdx_zero]
    · unfold BackendState.set_pinned
      simp only [hfind, hget]
      simp

/-- A concrete three-entry unpinned history (ids 3, 2, 1 from head to
tail) for exercising `set_pinned`. -/
def pinItemOf (i : Nat) : ClipboardItem :=
  { item_id := i
    content_preview := "q" ++ toString i
    content_type := ClipboardContentType.Text
    timestamp := 0
    pinned := false
    mime_data := [("t", [0])]
    thumbnail := none }

/-- A store of three unpinned entries, entry id 2 in the middle. -/
def pinWitnessState : BackendState :=
  { BackendState.new false with
    history := [pinItemOf 3, pinItemOf 2, pinItemOf 1]
    id_for_next_entry := 4 }

/-- C8 witness: the invariant for a concrete run ending in a pin, and the
movement equations for pinning/unpinning the middle entry of a concrete
three-entry store. -/
theorem pinned_ordering_invariant_witness :
    List.Pairwise pinnedOrder
      (runStore (BackendState.new false)
        [StoreOp.insert (fun _ => none) 0 [("a", [1])],
         StoreOp.insert (fun _ => none) 1 [("b", [2])],
         StoreOp.pin 1 true]).history
    ∧ ((pinWitnessState.set_pinned 2 true).2.history
        = { pinItemOf 2 with pinned := true } :: pinWitnessState.history.eraseIdx 1)
    ∧ ((pinWitnessState.set_pinned 2 false).2.history
        = (pinWitnessState.history.eraseIdx 1).insertIdx
            ((pinWitnessState.history.eraseIdx 1).findIdx (fun e => !e.pinned))
            { pinItemOf 2 with pinned := false }) := by
  refine ⟨pinned_ordering_invariant.1 false _, ?_, ?_⟩
  · exact (pinned_ordering_invariant.2 pinWitnessState 2 1 (pinItemOf 2) rfl rfl).1
  · exact (pinned_ordering_invariant.2 pinWitnessState 2 1 (pinItemOf 2) rfl rfl).2

/-! ## C7 -/

/-- The number of pinned entries of a history. -/
def countPinned (l : List ClipboardItem) : Nat :=
  (l.filter (fun e => e.pinned)).length

/-- In a pinned-prefix-ordered list, the first unpinned position is the
number of pinned entries. -/
theorem findIdx_unpinned_eq_countPinned :
    ∀ l : List ClipboardItem, List.Pairwise pinnedOrder l →
      l.findIdx (fun e => !e.pinned) = countPinned l := by
  intro l
  induction l with
  | nil =>
    intro _
    rfl
  | cons a t ih =>
    intro hp
    cases hpa : a.pinned with
    | false =>
      simp only [List.findIdx_cons, hpa, Bool.not_false, cond_true]
      unfold countPinned
      rw [List.filter_cons, if_neg (by simp [hpa])]
      have hall := pinnedOrder_all_unpinned hp hpa
      rw [eq_comm, List.length_eq_zero, List.filter_eq_nil_iff]
      intro y hy
      simp [hall y (List.mem_cons_of_mem a hy)]
    | true =>
      simp only [List.findIdx_cons, hpa, Bool.not_true, cond_false]
      rw [List.pairwise_cons] at hp
      have ht := ih hp.2
      unfold countPinned at ht ⊢
      rw [List.filter_cons, if_pos (by simp [hpa])]
      simp [ht]

/-- Filtering cannot increase the pinned count. -/
theorem countPinned_filter_le (p : ClipboardItem → Bool) (l : List ClipboardItem) :
    countPinned (l.filter p) ≤ countPinned l := by
  unfold countPinned
  exact List.Sublist.length_le (List.Sublist.filter _ (List.filter_sublist l))

/-- Insertion at an in-range position splits the list around the new
element. -/
theorem insertIdx_decomp {α : Type _} :
    ∀ (k : Nat) (x : α) (l : List α), k ≤ l.length →
      List.insertIdx k x l = l.take k ++ x :: l.drop k := by
  intro k
  induction k with
  | zero =>
    intro x l _
    simp [List.insertIdx_zero]
  | succ n ih =>
    intro x l hl
    cases l with
    | nil => simp at hl
    | cons a t =>
      rw [List.insertIdx_succ_cons, ih x t (by simpa using hl)]
      simp [List.take_succ_cons, List.drop_succ_cons]

/-- Looking the fresh id up in the inserted history finds the new item,
provided fewer than 100 entries are pinned and the invariant holds. -/
theorem get_new_item_addHistory (sc : Bytes → Option Bytes) (now : Nat)
    (s : BackendState) (m : MimeMap) (hinv : StoreInv s)
    (hpin : countPinned s.history < 100) :
    (addHistory sc now s m).find? (fun i => i.item_id == s.id_for_next_entry)
      = some (makeClipboardItem sc now s.id_for_next_entry m) := by
  simp only [addHistory]
  set item := makeClipboardItem sc now s.id_for_next_entry m with hitem
  set retained := s.history.filter
    (fun existing => existing.content_preview != item.content_preview) with hret
  set k := retained.findIdx (fun e => !e.pinned) with hkdef
  have hretp : List.Pairwise pinnedOrder retained := by
    rw [hret]
    exact List.Pairwise.filter _ hinv.1
  have hkc : k = countPinned retained := by
    rw [hkdef]
    exact findIdx_unpinned_eq_countPinned _ hretp
  have hcle : countPinned retained ≤ countPinned s.history := by
    rw [hret]
    exact countPinned_filter_le _ _
  have hklt : k < 100 := by omega
  have hkle : k ≤ retained.length := by
    rw [hkdef]
    exact List.findIdx_le_length _
  have hids : ∀ y ∈ retained.take k,
      (y.item_id == s.id_for_next_entry) = false := by
    intro y hy
    have hmem : y ∈ s.history := by
      have h1 := List.mem_of_mem_take hy
      rw [hret] at h1
      exact List.mem_of_mem_filter h1
    have := hinv.2.1 y hmem
    simp only [beq_eq_false_iff_ne, ne_eq]
    omega
  have hitemid : (item.item_id == s.id_for_next_entry) = true := by
    rw [hitem, makeClipboardItem_item_id]
    exact beq_self_eq_true _
  have hA : (retained.take k).find?
      (fun i => i.item_id == s.id_for_next_entry) = none := by
    rw [List.find?_eq_none]
    intro x hx
    simp [hids x hx]
  rw [insertIdx_decomp k item retained hkle]
  split
  · rename_i hlen
    have hAlen : (retained.take k).length = k := by
      rw [List.length_take]
      omega
    rw [List.take_append_eq_append_take,
      List.take_of_length_le (by omega : (retained.take k).length ≤ 100), hAlen,
      (by omega : 100 - k = (100 - k - 1) + 1), List.take_succ_cons,
      List.find?_append, hA, Option.none_or]
    exact List.find?_cons_of_pos _ hitemid
  · rw [List.find?_append, hA, Option.none_or]
    exact List.find?_cons_of_pos _ hitemid

/-- A store whose 100 entries are all pinned (reachable by 100 inserts
each followed by a pin). -/
def fullPinnedState : BackendState :=
  { BackendState.new false with
    history := (List.range 100).map (fun i =>
      { item_id := i + 1
        content_preview := "p" ++ toString i
        content_type := ClipboardContentType.Text
        timestamp := 0
        pinned := true
        mime_data := [("t", [0])]
        thumbnail := none })
    id_for_next_entry := 101 }

set_option maxRecDepth 4000 in
/-- C7 counterexample: on a store of 100 pinned entries, inserting a fresh
non-empty map returns the id 101, but the new entry is inserted at
position 100 and immediately truncated away, so `get(101)` fails — the
round-trip does not hold. -/
theorem insert_get_roundtrip_cex :
    (fullPinnedState.add_clipboard_item_from_mime_map (fun _ => none) 0
        [("zz", [7])]).1 = some 101
    ∧ ((fullPinnedState.add_clipboard_item_from_mime_map (fun _ => none) 0
        [("zz", [7])]).2).get_item_by_id 101 = none := by
  exact ⟨by decide, by decide⟩

/-- C7 (amended): in every reachable store with fewer than 100 pinned
entries, inserting a non-empty MIME map returns the fresh id, and getting
that id yields an item whose `mime_data` equals the map exactly (same
keys, same payloads, same order). -/
theorem insert_get_roundtrip (mo : Bool) (ops : List StoreOp)
    (sc : Bytes → Option Bytes) (now : Nat) (m : MimeMap)
    (hm : m.isEmpty = false)
    (hpin : countPinned (runStore (BackendState.new mo) ops).history < 100) :
    ∃ s' : BackendState,
      (runStore (BackendState.new mo) ops).add_clipboard_item_from_mime_map sc now m
        = (some (runStore (BackendState.new mo) ops).id_for_next_entry, s')
      ∧ ∃ it : ClipboardItem,
          s'.get_item_by_id (runStore (BackendState.new mo) ops).id_for_next_entry
            = some it
          ∧ it.mime_data = m := by
  set s := runStore (BackendState.new mo) ops with hs
  have hinv : StoreInv s := by
    rw [hs]
    exact storeInv_runStore ops (storeInv_new mo)
  have hadd : s.add_clipboard_item_from_mime_map sc now m
      = (some s.id_for_next_entry,
         { s with history := addHistory sc now s m,
                  id_for_next_entry := s.id_for_next_entry + 1 }) := by
    unfold BackendState.add_clipboard_item_from_mime_map
    rw [if_neg (by simp [hm] : ¬(m.isEmpty = true))]
  refine ⟨_, hadd, makeClipboardItem sc now s.id_for_next_entry m, ?_,
    makeClipboardItem_mime_data sc now _ m⟩
  unfold BackendState.get_item_by_id
  exact get_new_item_addHistory sc now s m hinv hpin

/-- C7 witness: the amended round-trip on a fresh store and a concrete
one-binding map. -/
theorem insert_get_roundtrip_witness :
    ∃ s' : BackendState,
      (runStore (BackendState.new false) []).add_clipboard_item_from_mime_map
          (fun _ => none) 0 [("a", [1])]
        = (some (runStore (BackendState.new false) []).id_for_next_entry, s')
      ∧ ∃ it : ClipboardItem,
          s'.get_item_by_id (runStore (BackendState.new false) []).id_for_next_entry
            = some it
          ∧ it.mime_data = [("a", [1])] :=
  insert_get_roundtrip false [] (fun _ => none) 0 [("a", [1])] rfl (by decide)

/-! ## C10 -/

/-- Every element of the narrowed target set was announced. -/
theorem mem_select_target_mimes {x : String} {l : List String} :
    x ∈ select_target_mimes l → x ∈ l := by
  intro hx
  unfold select_target_mimes at hx
  rcases h1 : l.find? (fun m => m == "image/png") with _ | v1 <;> rw [h1] at hx
  · rcases h2 : l.find? (fun m => m == "image/jpeg") with _ | v2 <;> rw [h2] at hx
    · rcases h3 : l.find? (fun m => m == "image/bmp") with _ | v3 <;> rw [h3] at hx
      · simpa [Option.orElse] using hx
      · simp [Option.orElse] at hx
        rw [hx]
        exact List.mem_of_find?_eq_some h3
    · simp [Option.orElse] at hx
      rw [hx]
      exact List.mem_of_find?_eq_some h2
  · simp [Option.orElse] at hx
    rw [hx]
    exact List.mem_of_find?_eq_some h1

/-- Members of a `mimeInsert` result come from the accumulator or carry
the inserted key. -/
theorem mem_mimeInsert {acc : MimeMap} {k : String} {v : Bytes}
    {kv : String × Bytes} (h : kv ∈ mimeInsert acc k v) : kv ∈ acc ∨ kv.1 = k := by
  unfold mimeInsert at h
  split at h
  · rcases List.mem_map.mp h with ⟨q, hq, hfq⟩
    by_cases hqk : (q.1 == k) = true
    · rw [if_pos hqk] at hfq
      right
      rw [← hfq]
    · rw [if_neg hqk] at hfq
      left
      rw [← hfq]
      exact hq
  · rcases List.mem_append.mp h with h1 | h1
    · exact Or.inl h1
    · right
      simp only [List.mem_singleton] at h1
      rw [h1]

/-- The keys accumulated by the pipe-read fold all come from the target
set. -/
theorem read_fold_keys (world : String → Option Bytes) (P : String → Prop) :
    ∀ (ts : List String) (acc : MimeMap),
      (∀ kv ∈ acc, P kv.1) → (∀ t ∈ ts, P t) →
      ∀ kv ∈ ts.foldl (fun mime_map mime =>
          match world mime with
          | some buf => if buf.isEmpty then mime_map else mimeInsert mime_map mime buf
          | none => mime_map) acc, P kv.1 := by
  intro ts
  induction ts with
  | nil =>
    intro acc hacc _ kv hkv
    exact hacc kv hkv
  | cons t ts ih =>
    intro acc hacc hts kv hkv
    rw [List.foldl_cons] at hkv
    refine ih _ ?_ (fun u hu => hts u (List.mem_cons_of_mem t hu)) kv hkv
    intro kv2 hkv2
    rcases hw : world t with _ | buf <;> rw [hw] at hkv2 <;> dsimp only at hkv2
    · exact hacc kv2 hkv2
    · by_cases hb : buf.isEmpty = true
      · rw [if_pos hb] at hkv2
        exact hacc kv2 hkv2
      · rw [if_neg hb] at hkv2
        rcases mem_mimeInsert hkv2 with hmem | hk
        · exact hacc kv2 hmem
        · rw [hk]
          exact hts t (List.mem_cons_self t ts)

/-- Every key of a read MIME map belongs to the narrowed target set. -/
theorem read_all_keys (world : String → Option Bytes) (l : List String) :
    ∀ kv ∈ read_all_data_formats world l, kv.1 ∈ select_target_mimes l := by
  unfold read_all_data_formats
  split
  · intro kv hkv
    cases hkv
  · exact read_fold_keys world (fun x => x ∈ select_target_mimes l)
      (select_target_mimes l) [] (fun kv h => absurd h (List.not_mem_nil kv))
      (fun t ht => ht)

/-- Members of an `offersInsert` result come from the original map or are
the new binding. -/
theorem mem_offersInsert {l : List (Nat × List String)} {k : Nat}
    {v : List String} {q : Nat × List String} (h : q ∈ offersInsert l k v) :
    q ∈ l ∨ q = (k, v) := by
  unfold offersInsert at h
  split at h
  · rcases List.mem_map.mp h with ⟨p, hp, hfp⟩
    by_cases hpk : (p.1 == k) = true
    · rw [if_pos hpk] at hfp
      right
      rw [← hfp]
    · rw [if_neg hpk] at hfp
      left
      rw [← hfp]
      exact hp
  · rcases List.mem_append.mp h with h1 | h1
    · exact Or.inl h1
    · right
      simpa using h1

/-- Members of an `offersAppendMime` result are old bindings or an old
binding with the MIME type appended. -/
theorem mem_offersAppendMime {l : List (Nat × List String)} {k : Nat}
    {mime : String} {q : Nat × List String} (h : q ∈ offersAppendMime l k mime) :
    (∃ p ∈ l, q = (p.1, p.2 ++ [mime])) ∨ q ∈ l := by
  unfold offersAppendMime at h
  rcases List.mem_map.mp h with ⟨p, hp, hfp⟩
  by_cases hpk : (p.1 == k) = true
  · rw [if_pos hpk] at hfp
    exact Or.inl ⟨p, hp, hfp.symm⟩
  · rw [if_neg hpk] at hfp
    right
    rw [← hfp]
    exact hp

/-- A successful `offersGet` returns the MIME list of some binding. -/
theorem offersGet_inv {l : List (Nat × List String)} {k : Nat} {v : List String}
    (h : offersGet l k = some v) : ∃ p ∈ l, p.2 = v := by
  unfold offersGet at h
  rcases hf : l.find? (fun p => p.1 == k) with _ | p <;> rw [hf] at h
  · cases h
  · refine ⟨p, List.mem_of_find?_eq_some hf, ?_⟩
    simpa using h

/-- The system invariant of C10: no cached offer MIME list and no stored
MIME key begins with "video". -/
def SysInv (s : BackendState) : Prop :=
  (∀ p ∈ s.mime_type_offers, ∀ mi ∈ p.2, strStarts mi "video" = false)
  ∧ (∀ it ∈ s.history, ∀ kv ∈ it.mime_data, strStarts kv.1 "video" = false)

/-- Ownership taking never changes the history or the offer cache. -/
theorem set_clipboard_by_id_fields (s : BackendState) (id fre : Nat) :
    (s.set_clipboard_by_id id fre).2.1.history = s.history
    ∧ (s.set_clipboard_by_id id fre).2.1.mime_type_offers = s.mime_type_offers := by
  unfold BackendState.set_clipboard_by_id
  split
  · exact ⟨rfl, rfl⟩
  · split
    · exact ⟨rfl, rfl⟩
    · exact ⟨rfl, rfl⟩

/-- A `Cancelled` event never changes the history or the offer cache. -/
theorem onCancelled_fields (s : BackendState) (src : Nat) :
    (onCancelled s src).1.history = s.history
    ∧ (onCancelled s src).1.mime_type_offers = s.mime_type_offers := by
  unfold onCancelled
  split <;> exact ⟨rfl, rfl⟩

/-- Members of the history after `set_pinned` are old entries, possibly
with the pinned flag flipped. -/
theorem mem_history_set_pinned {s : BackendState} {id : Nat} {p : Bool}
    {y : ClipboardItem} (hy : y ∈ (s.set_pinned id p).2.history) :
    (∃ item0 ∈ s.history, y = { item0 with pinned := p }) ∨ y ∈ s.history := by
  unfold BackendState.set_pinned at hy
  split at hy
  · exact Or.inr hy
  · split at hy
    · exact Or.inr hy
    · rename_i x index heq z item0 heq2
      dsimp only at hy
      have hkle : (if p = true then 0
          else ((s.history.eraseIdx index).findIdx (fun e => !e.pinned)))
          ≤ (s.history.eraseIdx index).length := by
        split
        · omega
        · exact List.findIdx_le_length _
      rcases (List.mem_insertIdx hkle).mp hy with rfl | hmem
      · exact Or.inl ⟨item0, List.getElem?_mem heq2, rfl⟩
      · exact Or.inr ((List.eraseIdx_sublist _ _).subset hmem)

/-- Members of the history after a delete are old entries. -/
theorem mem_history_delete {s : BackendState} {id : Nat} {y : ClipboardItem}
    (hy : y ∈ (s.delete_item_by_id id).2.1.history) : y ∈ s.history := by
  unfold BackendState.delete_item_by_id at hy
  split at hy
  · exact hy
  · dsimp only at hy
    split at hy <;> exact (List.eraseIdx_sublist _ _).subset hy

/-- Pinning never changes the offer cache. -/
theorem offers_set_pinned (s : BackendState) (id : Nat) (p : Bool) :
    (s.set_pinned id p).2.mime_type_offers = s.mime_type_offers := by
  unfold BackendState.set_pinned
  split
  · rfl
  · split <;> rfl

/-- Deleting never changes the offer cache. -/
theorem offers_delete (s : BackendState) (id : Nat) :
    (s.delete_item_by_id id).2.1.mime_type_offers = s.mime_type_offers := by
  unfold BackendState.delete_item_by_id
  split
  · rfl
  · dsimp only
    split <;> rfl

/-- Inserting a MIME map without video keys preserves the system
invariant. -/
theorem sysInv_add {s : BackendState} {m : MimeMap} (sc : Bytes → Option Bytes)
    (now : Nat) (h : SysInv s)
    (hm : ∀ kv ∈ m, strStarts kv.1 "video" = false) :
    SysInv (s.add_clipboard_item_from_mime_map sc now m).2 := by
  rcases add_result_cases sc now s m with heq | heq <;> rw [heq]
  · exact h
  · refine ⟨h.1, ?_⟩
    intro it hit kv hkv
    rcases mem_addHistory hit with rfl | hmem
    · rw [makeClipboardItem_mime_data] at hkv
      exact hm kv hkv
    · exact h.2 it hmem kv hkv

/-- Every dispatch step preserves the system invariant. -/
theorem sysInv_step {s : BackendState} (inp : SysInput) (h : SysInv s) :
    SysInv (stepSys s inp).1 := by
  cases inp with
  | bindGlobals => exact h
  | dataOffer o =>
    refine ⟨?_, h.2⟩
    intro p hp mi hmi
    rcases mem_offersInsert hp with hmem | rfl
    · exact h.1 p hmem mi hmi
    · cases hmi
  | offerMime o mime =>
    show SysInv (onOfferMime s o mime)
    unfold onOfferMime
    split
    · rename_i hc
      refine ⟨?_, h.2⟩
      intro p hp mi hmi
      rcases mem_offersAppendMime hp with ⟨q, hq, rfl⟩ | hmem
      · rcases List.mem_append.mp hmi with hmi1 | hmi1
        · exact h.1 q hq mi hmi1
        · simp only [List.mem_singleton] at hmi1
          rw [hmi1]
          cases hb : strStarts mime "video"
          · rfl
          · exact absurd hb hc.2
      · exact h.1 p hmem mi hmi
    · exact h
  | selection o world sc fresh now =>
    rcases o with _ | key
    · exact ⟨h.1, h.2⟩
    · show SysInv (onSelection s (some key) world sc fresh now).1
      unfold onSelection
      dsimp only
      split
      · exact h
      · rename_i x mimes heq
        have hmimes : ∀ mi ∈ mimes, strStarts mi "video" = false := by
          intro mi hmi
          rcases offersGet_inv heq with ⟨p, hp, hpv⟩
          exact h.1 p hp mi (hpv ▸ hmi)
        have hs1 : SysInv
            { s with current_data_offer := some key, mime_type_offers := [] } := by
          refine ⟨?_, h.2⟩
          intro p hp mi hmi
          cases hp
        have hmap : ∀ kv ∈ read_all_data_formats world mimes,
            strStarts kv.1 "video" = false := by
          intro kv hkv
          exact hmimes kv.1 (mem_select_target_mimes (read_all_keys world mimes kv hkv))
        split
        · exact ⟨h.1, h.2⟩
        · split
          · exact h
          · split
            · exact hs1
            · split
              · rename_i r new_id s2 heqadd
                have hs2 : SysInv s2 := by
                  have := sysInv_add sc now hs1 hmap
                  rw [heqadd] at this
                  exact this
                split
                · dsimp only
                  refine ⟨?_, ?_⟩
                  · rw [(set_clipboard_by_id_fields s2 new_id fresh).2]
                    exact hs2.1
                  · rw [(set_clipboard_by_id_fields s2 new_id fresh).1]
                    exact hs2.2
                · exact hs2
              · rename_i r s2 heqadd
                have := sysInv_add sc now hs1 hmap
                rw [heqadd] at this
                exact this
  | send mime =>
    show SysInv (onSend s mime).1
    rw [onSend_state]
    exact h
  | cancelled src =>
    show SysInv (onCancelled s src).1
    refine ⟨?_, ?_⟩
    · rw [(onCancelled_fields s src).2]
      exact h.1
    · rw [(onCancelled_fields s src).1]
      exact h.2
  | opGetHistory => exact h
  | opSetClipboardById id fre =>
    show SysInv (s.set_clipboard_by_id id fre).2.1
    refine ⟨?_, ?_⟩
    · rw [(set_clipboard_by_id_fields s id fre).2]
      exact h.1
    · rw [(set_clipboard_by_id_fields s id fre).1]
      exact h.2
  | opSetPinned id p =>
    show SysInv (s.set_pinned id p).2
    refine ⟨?_, ?_⟩
    · rw [offers_set_pinned]
      exact h.1
    · intro it hit kv hkv
      rcases mem_history_set_pinned hit with ⟨item0, hmem0, rfl⟩ | hmem
      · exact h.2 item0 hmem0 kv hkv
      · exact h.2 it hmem kv hkv
  | opDeleteItemById id =>
    show SysInv (s.delete_item_by_id id).2.1
    refine ⟨?_, ?_⟩
    · rw [offers_delete]
      exact h.1
    · intro it hit kv hkv
      exact h.2 it (mem_history_delete hit) kv hkv
  | opClearHistory =>
    show SysInv s.clear_history
    refine ⟨h.1, ?_⟩
    intro it hit kv hkv
    cases hit
  | opAddTextDebug txt now =>
    show SysInv (s.add_clipboard_item_from_mime_map (fun _ => none) now
      [("text/plain;charset=utf-8", txt)]).2
    refine sysInv_add (fun _ => none) now h ?_
    intro kv hkv
    simp only [List.mem_singleton] at hkv
    rw [hkv]
    show strStarts "text/plain;charset=utf-8" "video" = false
    decide

/-- C10: a video-prefixed MIME type announced by an `Offer` event is never
appended to a cached per-offer MIME list, so in every reachable state no
cached offer MIME list contains such a type and no stored entry holds a
video payload. -/
theorem video_mimes_never_cached_or_stored :
    ∀ s : BackendState, ReachableSys s →
      (∀ p ∈ s.mime_type_offers, ∀ mi ∈ p.2, strStarts mi "video" = false)
      ∧ (∀ it ∈ s.history, ∀ kv ∈ it.mime_data, strStarts kv.1 "video" = false) := by
  intro s hreach
  induction hreach with
  | init mo =>
    constructor
    · intro p hp mi hmi
      cases hp
    · intro it hit kv hkv
      cases hit
  | step inp h ih => exact sysInv_step inp ih

/-- C10 witness: the invariant after announcing offer 7 with a text MIME
type from a fresh backend. -/
theorem video_mimes_never_cached_or_stored_witness :
    (∀ p ∈ (stepSys (stepSys (BackendState.new false) (SysInput.dataOffer 7)).1
        (SysInput.offerMime 7 "text/plain")).1.mime_type_offers,
      ∀ mi ∈ p.2, strStarts mi "video" = false)
    ∧ (∀ it ∈ (stepSys (stepSys (BackendState.new false) (SysInput.dataOffer 7)).1
        (SysInput.offerMime 7 "text/plain")).1.history,
      ∀ kv ∈ it.mime_data, strStarts kv.1 "video" = false) :=
  video_mimes_never_cached_or_stored _
    (ReachableSys.step _ (ReachableSys.step _ (ReachableSys.init false)))

end CursorClip
